import Mathlib

/-!
# Verification of the opencode-design-lab core

Shallow embedding of the completion-polling loop, the design-isolation hook,
the score aggregation / consensus / ranking functions, and the per-model
failure handling of the orchestrator and tool pipelines, together with
theorems settling the specified properties.

JavaScript numbers are modelled as exact rationals (`ℚ`); `Math.round` is
`fun x => Int.floor (x + 1/2)` (round half toward positive infinity), which
matches its behaviour on the values at issue.
-/

/-! ## CompletionMonitor (`pollForCompletion`, utils/session-helpers part) -/

/-- One poll's observation of the remote session: the status reported by
`session.status()` (`none` when the session is absent from the status map,
which the code treats like idle) and the message count that
`session.messages()` would report at that moment. -/
structure PollObs where
  status : Option String
  msgCount : Nat
deriving Repr, DecidableEq

/-- The mutable loop state of `pollForCompletion`: `lastMsgCount` and
`stablePolls`. -/
structure PollState where
  lastMsgCount : Nat
  stablePolls : Nat
deriving Repr, DecidableEq

/-- `STABILITY_REQUIRED = 3` in the source. -/
def STABILITY_REQUIRED : Nat := 3

/-- One iteration of the `while` body of `pollForCompletion`: if the status
is present and not `"idle"`, reset both counters; otherwise compare the
current message count with `lastMsgCount`, incrementing `stablePolls` when
it is positive and unchanged (returning `true` once the threshold is
reached) and resetting and recording the new count otherwise. -/
def pollStep (st : PollState) (ob : PollObs) : PollState × Bool :=
  let idleCheck : PollState × Bool :=
    if ob.msgCount > 0 ∧ ob.msgCount = st.lastMsgCount then
      let st' : PollState := ⟨st.lastMsgCount, st.stablePolls + 1⟩
      (st', decide (st'.stablePolls ≥ STABILITY_REQUIRED))
    else
      (⟨ob.msgCount, 0⟩, false)
  match ob.status with
  | some s => if s ≠ "idle" then (⟨0, 0⟩, false) else idleCheck
  | none => idleCheck

/-- Run the poll loop over a finite observation sequence, returning the
1-based index of the poll at which completion is declared (`none` if the
sequence is exhausted first).  The 10-minute timeout and the abort signal
are outside this finite trace. -/
def pollRun (st : PollState) (obs : List PollObs) (n : Nat) : Option Nat :=
  match obs with
  | [] => none
  | ob :: rest =>
      let (st', done) := pollStep st ob
      if done then some n else pollRun st' rest (n + 1)

/-- `pollForCompletion` on a finite observation trace: start from
`lastMsgCount = 0`, `stablePolls = 0` and report the first completing poll. -/
def pollForCompletion (obs : List PollObs) : Option Nat :=
  pollRun ⟨0, 0⟩ obs 1

/-- The scenario of the claim: statuses
`[running, running, idle, idle, idle, idle]` with message count `c` observed
at every idle poll. -/
def claimOneTrace (c : Nat) : List PollObs :=
  [⟨some "running", c⟩, ⟨some "running", c⟩,
   ⟨some "idle", c⟩, ⟨some "idle", c⟩, ⟨some "idle", c⟩, ⟨some "idle", c⟩]

/-- C1 (counterexample): on the status sequence
`[running, running, idle, idle, idle, idle]` with a positive, unchanging
message count at every idle poll, `pollForCompletion` does not declare
completion at the 5th poll; it declares it at the 6th. -/
theorem poll_completion_not_fifth_counterexample :
    pollForCompletion (claimOneTrace 5) ≠ some 5 ∧
      pollForCompletion (claimOneTrace 5) = some 6 := by
  constructor
  · decide
  · decide

/-- C1 (amended): for every positive message count `c`, on the status
sequence `[running, running, idle, idle, idle, idle]` with count `c`
observed at each idle poll, `pollForCompletion` declares completion exactly
at the 6th poll — the first idle poll only records the count (the running
polls reset it to 0), and the stability counter then reaches the threshold
3 on the 4th idle poll — and not earlier. -/
theorem poll_completion_fires_at_sixth (c : Nat) (hc : 0 < c) :
    pollForCompletion (claimOneTrace c) = some 6 := by
  have h0 : c ≠ 0 := Nat.pos_iff_ne_zero.mp hc
  simp [pollForCompletion, claimOneTrace, pollRun, pollStep,
    STABILITY_REQUIRED, hc, h0]

/-- Witness for C1's amended theorem at the concrete count 7. -/
theorem poll_completion_fires_at_sixth_witness :
    pollForCompletion (claimOneTrace 7) = some 6 :=
  poll_completion_fires_at_sixth 7 (by decide)

/-! ## A model of Node.js posix path handling

The isolation hook manipulates paths through `path.normalize`, `path.join`
and JavaScript's `String.prototype.startsWith` / `includes`.  Paths are
plain strings; the functions below implement Node's posix algorithms over
the underlying character lists. -/

/-- Split a character list at every character satisfying `p`
(JavaScript's `split` keeps empty pieces between adjacent separators). -/
def splitPred (p : Char → Bool) : List Char → List (List Char)
  | [] => [[]]
  | c :: cs =>
      let r := splitPred p cs
      if p c then [] :: r
      else
        match r with
        | h :: t => (c :: h) :: t
        | [] => [[c]]

/-- Resolve `.` and `..` segments the way Node's `normalizeString` does;
`allowAboveRoot` is true for relative paths.  `acc` holds the segments
resolved so far, in reverse order. -/
def resolveSegs (allowAboveRoot : Bool) (acc : List String) :
    List String → List String
  | [] => acc.reverse
  | seg :: rest =>
      if seg = "" ∨ seg = "." then resolveSegs allowAboveRoot acc rest
      else if seg = ".." then
        match acc with
        | top :: tail =>
            if top = ".." then
              if allowAboveRoot then
                resolveSegs allowAboveRoot (".." :: top :: tail) rest
              else resolveSegs allowAboveRoot (top :: tail) rest
            else resolveSegs allowAboveRoot tail rest
        | [] =>
            if allowAboveRoot then resolveSegs allowAboveRoot [".."] rest
            else resolveSegs allowAboveRoot [] rest
      else resolveSegs allowAboveRoot (seg :: acc) rest

/-- Node `path.posix.normalize`. -/
def pathNormalize (p : String) : String :=
  if p = "" then "."
  else
    let isAbs := p.data.head? = some '/'
    let trailing := p.data.getLast? = some '/'
    let segs := (splitPred (fun c => c = '/') p.data).map (fun cs => String.mk cs)
    let body := String.intercalate "/" (resolveSegs (!isAbs) [] segs)
    if body = "" then
      if isAbs then "/" else if trailing then "./" else "."
    else
      let body' := if trailing then body ++ "/" else body
      if isAbs then "/" ++ body' else body'

/-- Node `path.posix.join` restricted to two arguments: concatenate the
non-empty pieces with `/` and normalize. -/
def pathJoin (a b : String) : String :=
  if a = "" ∧ b = "" then "."
  else if a = "" then pathNormalize b
  else if b = "" then pathNormalize a
  else pathNormalize (a ++ "/" ++ b)

/-- `pre` is a leading run of `s` (character-list prefix test). -/
def listIsLeading : List Char → List Char → Bool
  | [], _ => true
  | _ :: _, [] => false
  | a :: as, b :: bs => a = b && listIsLeading as bs

/-- JavaScript `String.prototype.startsWith`. -/
def strStartsWith (s pre : String) : Bool :=
  listIsLeading pre.data s.data

/-- `pat` occurs somewhere inside `s`. -/
def listHasInfix (s pat : List Char) : Bool :=
  match s with
  | [] => listIsLeading pat []
  | _ :: rest => listIsLeading pat s || listHasInfix rest pat

/-- JavaScript `String.prototype.includes`. -/
def strIncludes (s pat : String) : Bool :=
  listHasInfix s.data pat.data

/-- Drop whitespace from both ends (JavaScript `String.prototype.trim`). -/
def trimChars (cs : List Char) : List Char :=
  ((cs.dropWhile Char.isWhitespace).reverse.dropWhile Char.isWhitespace).reverse

/-! ## IsolationGuard (`DesignIsolationHook`, src/commands/index.ts) -/

/-- The hook's fields: `designsDir` and the `enabled` flag. -/
structure DesignIsolationHook where
  designsDir : String
  enabled : Bool

/-- The constructor: `designsDir = path.join(baseDir, "designs")`. -/
def mkDesignIsolationHook (baseDir : String) (enabled : Bool) :
    DesignIsolationHook :=
  ⟨pathJoin baseDir "designs", enabled⟩

/-- JavaScript truthiness of the optional `currentDesignId`: absent or
empty means no owner is bound. -/
def truthyId : Option String → Bool
  | none => false
  | some s => s ≠ ""

/-- `isDesignPath`: the normalized target starts (as a string) with the
normalized designs directory. -/
def DesignIsolationHook.isDesignPath (h : DesignIsolationHook)
    (targetPath : String) : Bool :=
  strStartsWith (pathNormalize targetPath) (pathNormalize h.designsDir)

/-- `isAllowedRead`. -/
def DesignIsolationHook.isAllowedRead (h : DesignIsolationHook)
    (targetPath : String) (currentDesignId : Option String) : Bool :=
  if !h.enabled then true
  else if !h.isDesignPath targetPath then true
  else if !truthyId currentDesignId then false
  else
    strStartsWith (pathNormalize targetPath)
      (pathJoin h.designsDir (currentDesignId.getD ""))

/-- The `write` branch of `getHandler`: `true` means the write proceeds,
`false` that the handler throws a "Design isolation violation" error.
When the hook is disabled `getHandler` returns a no-op handler that allows
everything. -/
def DesignIsolationHook.writeAllowed (h : DesignIsolationHook)
    (currentDesignId : Option String) (targetPath : String) : Bool :=
  if !h.enabled then true
  else if !h.isDesignPath targetPath then true
  else if !truthyId currentDesignId then false
  else
    strStartsWith (pathNormalize targetPath)
      (pathJoin h.designsDir (currentDesignId.getD ""))

/-- The fixed list checked by the shell fallback. -/
def restrictedCommands : List String :=
  ["cd", "ls", "cat", "grep", "find", "rm", "cp", "mv"]

/-- `command.trim().split(/\s+/)[0]`. -/
def firstWord (command : String) : String :=
  String.mk
    (((splitPred (fun c => c.isWhitespace) (trimChars command.data)).filter
        (fun w => w ≠ [])).headD [])

/-- The `bash` / `interactive_bash` branch of `getHandler`: `true` means
the handler throws a "Design isolation violation" error for this command
(the empty string is JavaScript-falsy and skips the check entirely). -/
def DesignIsolationHook.bashDenied (h : DesignIsolationHook)
    (currentDesignId : Option String) (command : String) : Bool :=
  if !h.enabled then false
  else if command = "" then false
  else if restrictedCommands.contains (firstWord command) then
    if strIncludes command h.designsDir && !truthyId currentDesignId then true
    else false
  else false

/-- Modelled from the spec's wording: a target "falls under the sub-path
dedicated to the owner" when its normalized form equals the owner's
directory or lies below it as a whole directory component.  This follows
the specification text and is compared against the code's plain
string-prefix test. -/
def specFallsUnder (targetPath dir : String) : Bool :=
  pathNormalize targetPath = dir ||
    strStartsWith (pathNormalize targetPath) (dir ++ "/")

theorem listIsLeading_refl (l : List Char) : listIsLeading l l = true := by
  induction l with
  | nil => rfl
  | cons a as ih => simp [listIsLeading, ih]

theorem listIsLeading_append_left (xs ys b : List Char)
    (h : listIsLeading (xs ++ ys) b = true) : listIsLeading xs b = true := by
  induction xs generalizing b with
  | nil => rfl
  | cons a as ih =>
      cases b with
      | nil => simp [listIsLeading] at h
      | cons c bs =>
          simp only [List.cons_append, listIsLeading, Bool.and_eq_true] at h ⊢
          exact ⟨h.1, ih bs h.2⟩

theorem strStartsWith_self (s : String) : strStartsWith s s = true :=
  listIsLeading_refl s.data

theorem strStartsWith_of_append (s d t : String)
    (h : strStartsWith s (d ++ t) = true) : strStartsWith s d = true := by
  unfold strStartsWith at h ⊢
  rw [String.data_append] at h
  exact listIsLeading_append_left d.data t.data s.data h

/-- C2 (counterexample): with owner `"A"` bound and isolation enabled for
base directory `"/lab"`, a write into `"/lab/designs/AB/x.md"` — a path
that does **not** fall under owner A's sub-path `/lab/designs/A` but under
the sibling owner AB's — is allowed by the hook, because the check is a
plain string-prefix test. -/
theorem isolation_write_sibling_owner_counterexample :
    ((mkDesignIsolationHook "/lab" true).writeAllowed (some "A")
        "/lab/designs/AB/x.md" = true) ∧
      specFallsUnder "/lab/designs/AB/x.md"
        (pathJoin (mkDesignIsolationHook "/lab" true).designsDir "A") = false := by
  constructor
  · decide
  · decide

/-- C2 (amended): with isolation enabled, reads and writes are governed by
the same rule; a path outside the protected root (in the code's normalized
string-prefix sense) is always allowed; any access under the root with no
owner bound is denied; a path that falls under the owner's own sub-path
(as a directory) is allowed; and in general an access under the root with
an owner bound is allowed exactly when the normalized target has the
string `designsDir/ownerId` as a **string** prefix — so a sibling owner
whose id extends the bound owner's id as a string is also allowed, which
is the one divergence from the spec's component-wise reading. -/
theorem isolation_guard_string_prefix_rule (baseDir id t : String)
    (hid : id ≠ "") :
    ((mkDesignIsolationHook baseDir true).writeAllowed (some id) t =
        (mkDesignIsolationHook baseDir true).isAllowedRead t (some id)) ∧
    ((mkDesignIsolationHook baseDir true).isDesignPath t = false →
        (mkDesignIsolationHook baseDir true).isAllowedRead t (some id) = true) ∧
    ((mkDesignIsolationHook baseDir true).isDesignPath t = true →
        (mkDesignIsolationHook baseDir true).isAllowedRead t none = false) ∧
    (specFallsUnder t
        (pathJoin (mkDesignIsolationHook baseDir true).designsDir id) = true →
        (mkDesignIsolationHook baseDir true).isAllowedRead t (some id) = true) ∧
    ((mkDesignIsolationHook baseDir true).isDesignPath t = true →
        (mkDesignIsolationHook baseDir true).isAllowedRead t (some id) =
          strStartsWith (pathNormalize t)
            (pathJoin (mkDesignIsolationHook baseDir true).designsDir id)) := by
  set h := mkDesignIsolationHook baseDir true with hh
  have henabled : h.enabled = true := rfl
  have htruthy : truthyId (some id) = true := by
    simp [truthyId, hid]
  refine ⟨?_, ?_, ?_, ?_, ?_⟩
  · simp [DesignIsolationHook.writeAllowed, DesignIsolationHook.isAllowedRead]
  · intro hout
    simp [DesignIsolationHook.isAllowedRead, henabled, hout]
  · intro hin
    simp [DesignIsolationHook.isAllowedRead, henabled, hin, truthyId]
  · intro hunder
    by_cases hdes : h.isDesignPath t
    · have hpre : strStartsWith (pathNormalize t)
          (pathJoin h.designsDir id) = true := by
        simp only [specFallsUnder, Bool.or_eq_true, decide_eq_true_eq] at hunder
        rcases hunder with heq | hsl
        · rw [heq]; exact strStartsWith_self _
        · exact strStartsWith_of_append _ _ _ hsl
      simp [DesignIsolationHook.isAllowedRead, henabled, hdes, htruthy, hpre]
    · have hdes' : h.isDesignPath t = false := by simpa using hdes
      simp [DesignIsolationHook.isAllowedRead, henabled, hdes']
  · intro hin
    simp [DesignIsolationHook.isAllowedRead, henabled, hin, htruthy]

/-- Witness for C2's amended theorem: base `"/lab"`, owner `"A"`, target
`"/lab/designs/A/x.md"`. -/
theorem isolation_guard_string_prefix_rule_witness :
    ((mkDesignIsolationHook "/lab" true).writeAllowed (some "A")
        "/lab/designs/A/x.md" =
        (mkDesignIsolationHook "/lab" true).isAllowedRead
          "/lab/designs/A/x.md" (some "A")) ∧
    ((mkDesignIsolationHook "/lab" true).isDesignPath "/lab/designs/A/x.md" =
        false →
        (mkDesignIsolationHook "/lab" true).isAllowedRead
          "/lab/designs/A/x.md" (some "A") = true) ∧
    ((mkDesignIsolationHook "/lab" true).isDesignPath "/lab/designs/A/x.md" =
        true →
        (mkDesignIsolationHook "/lab" true).isAllowedRead
          "/lab/designs/A/x.md" none = false) ∧
    (specFallsUnder "/lab/designs/A/x.md"
        (pathJoin (mkDesignIsolationHook "/lab" true).designsDir "A") = true →
        (mkDesignIsolationHook "/lab" true).isAllowedRead
          "/lab/designs/A/x.md" (some "A") = true) ∧
    ((mkDesignIsolationHook "/lab" true).isDesignPath "/lab/designs/A/x.md" =
        true →
        (mkDesignIsolationHook "/lab" true).isAllowedRead
          "/lab/designs/A/x.md" (some "A") =
          strStartsWith (pathNormalize "/lab/designs/A/x.md")
            (pathJoin (mkDesignIsolationHook "/lab" true).designsDir "A")) :=
  isolation_guard_string_prefix_rule "/lab" "A" "/lab/designs/A/x.md"
    (by decide)

/-- C9 (counterexample): with no owner bound and isolation enabled for
base `"/lab"`, the shell command `"touch /lab/designs/x.md"` literally
references the protected designs root, yet the hook does **not** deny it:
only the eight first-words `cd ls cat grep find rm cp mv` are checked. -/
theorem isolation_bash_fallback_counterexample :
    ((mkDesignIsolationHook "/lab" true).bashDenied none
        "touch /lab/designs/x.md" = false) ∧
      strIncludes "touch /lab/designs/x.md"
        (mkDesignIsolationHook "/lab" true).designsDir = true := by
  constructor
  · decide
  · decide

/-- C9 (amended): with isolation enabled, a non-empty shell command is
denied (by a raised isolation violation) exactly when its first word is
one of the eight restricted commands, its text contains the designs-root
string, and no owner is bound; every other command — including ones that
reference the protected root under a different program name — is silently
allowed. -/
theorem isolation_bash_fallback_rule (baseDir cmd : String)
    (owner : Option String) (hcmd : cmd ≠ "") :
    (mkDesignIsolationHook baseDir true).bashDenied owner cmd =
      (restrictedCommands.contains (firstWord cmd) &&
        (strIncludes cmd (mkDesignIsolationHook baseDir true).designsDir &&
          !truthyId owner)) := by
  simp only [DesignIsolationHook.bashDenied]
  cases hres : restrictedCommands.contains (firstWord cmd) <;>
    cases hinc : strIncludes cmd (mkDesignIsolationHook baseDir true).designsDir <;>
      cases howner : truthyId owner <;>
        simp [hcmd, hres, hinc, howner, mkDesignIsolationHook]

/-- Witness for C9's amended theorem: `rm -rf` on the designs root with no
owner bound is denied. -/
theorem isolation_bash_fallback_rule_witness :
    (mkDesignIsolationHook "/lab" true).bashDenied none
        "rm -rf /lab/designs" =
      (restrictedCommands.contains (firstWord "rm -rf /lab/designs") &&
        (strIncludes "rm -rf /lab/designs"
            (mkDesignIsolationHook "/lab" true).designsDir &&
          !truthyId none)) :=
  isolation_bash_fallback_rule "/lab" "rm -rf /lab/designs" none (by decide)

/-! ## ScoreAggregator (reviews/index.ts, orchestrator/index.ts)

Scores are exact rationals.  `criterion.weight || 1.0` and
`score.weight || 1.0` read `0` as JavaScript-falsy. -/

/-- `Math.round(x * 100) / 100`. -/
def round2 (q : ℚ) : ℚ := (⌊q * 100 + 1 / 2⌋ : ℚ) / 100

/-- The `Score` record of `src/schemas`; the optional `comment` and `model`
strings are `""` when absent (the JavaScript-falsy default). -/
structure Score where
  name : String
  value : ℚ
  weight : ℚ
  variance : ℚ
  comment : String
  model : String
deriving Repr, DecidableEq

/-- `ScoringCriteria` from config/schema.ts. -/
structure ScoringCriteria where
  name : String
  description : String
  min : ℚ
  max : ℚ
  weight : ℚ
deriving Repr, DecidableEq

inductive Consensus where
  | high
  | medium
  | low
deriving Repr, DecidableEq

/-- The per-criterion loop body shared verbatim by
`aggregateQuantitativeScores` (reviews/index.ts lines 154-194) and
`aggregateScores` (orchestrator/index.ts lines 278-318), applied to the
flattened score list: filter by criterion name; with no contributing
scores push the placeholder at `criterion.min`; otherwise compute the
uniform-weight average, the population variance against it, and the
joined `[model] comment` string. -/
def aggregateForCriterion (criterion : ScoringCriteria)
    (allScores : List Score) : Score :=
  let criterionScores := allScores.filter (fun s => s.name = criterion.name)
  if criterionScores.length = 0 then
    ⟨criterion.name, criterion.min, 1, 0, "No scores provided", ""⟩
  else
    let weight := if criterion.weight = 0 then 1 else criterion.weight
    let weightedValues := criterionScores.map (fun s => s.value * weight)
    let average := weightedValues.sum / (weightedValues.length : ℚ)
    let weightedAverage := average / weight
    let variance :=
      (criterionScores.map (fun s => (s.value - weightedAverage) ^ 2)).sum /
        (criterionScores.length : ℚ)
    let comments := String.intercalate "; "
      ((criterionScores.map (fun s =>
          "[" ++ (if s.model = "" then "unknown" else s.model) ++ "] " ++
            s.comment)).filter (fun c => c ≠ ""))
    ⟨criterion.name, round2 weightedAverage, weight, round2 variance,
      if comments = "" then "No comments" else comments, ""⟩

/-- The `aggregated` list of `aggregateQuantitativeScores`
(reviews/index.ts): one entry per criterion, in configuration order, over
`scores.flat()`. -/
def quantAggregated (scores : List (List Score))
    (criteria : List ScoringCriteria) : List Score :=
  criteria.map (fun c => aggregateForCriterion c scores.flatten)

/-- `avgVariance` of `aggregateQuantitativeScores`: the mean of the
(already rounded) per-criterion variances, `0` for zero criteria. -/
def quantAvgVariance (scores : List (List Score))
    (criteria : List ScoringCriteria) : ℚ :=
  let aggregated := quantAggregated scores criteria
  if aggregated.length > 0 then
    (aggregated.map (fun s => s.variance)).sum / (aggregated.length : ℚ)
  else 0

/-- The consensus branch of `aggregateQuantitativeScores`. -/
def consensusOf (avgVariance : ℚ) : Consensus :=
  if avgVariance < 1 / 2 then Consensus.high
  else if avgVariance < 3 / 2 then Consensus.medium
  else Consensus.low

/-- The quantitative part of `AggregatedReview`. -/
structure QuantAgg where
  scores : List Score
  overallScore : ℚ
  variance : ℚ
  consensus : Consensus
deriving Repr, DecidableEq

/-- `aggregateQuantitativeScores` (reviews/index.ts lines 148-226). -/
def aggregateQuantitativeScores (scores : List (List Score))
    (criteria : List ScoringCriteria) : QuantAgg :=
  let aggregated := quantAggregated scores criteria
  let totalWeight :=
    (aggregated.map (fun s => if s.weight = 0 then 1 else s.weight)).sum
  let weightedSum :=
    (aggregated.map (fun s =>
      s.value * (if s.weight = 0 then 1 else s.weight))).sum
  let overallScore := if totalWeight > 0 then weightedSum / totalWeight else 0
  let avgVariance := quantAvgVariance scores criteria
  ⟨aggregated, round2 overallScore, round2 avgVariance,
    consensusOf avgVariance⟩

/-- `ScoreResult` (orchestrator/index.ts). -/
structure ScoreResult where
  model : String
  scores : List Score
deriving Repr, DecidableEq

/-- `aggregateScores` (orchestrator/index.ts lines 272-321): identical
per-criterion computation over `scoreResults.flatMap((sr) => sr.scores)`. -/
def aggregateScores (scoreResults : List ScoreResult)
    (criteria : List ScoringCriteria) : List Score :=
  criteria.map (fun c =>
    aggregateForCriterion c (scoreResults.flatMap (fun sr => sr.scores)))

theorem sum_map_const_q {α : Type} (l : List α) (c : ℚ) :
    (l.map fun _ => c).sum = (l.length : ℚ) * c := by
  induction l with
  | nil => simp
  | cons a as ih =>
      simp only [List.map_cons, List.sum_cons, List.length_cons, ih]
      push_cast
      ring

theorem sum_map_mul_right_q {α : Type} (l : List α) (f : α → ℚ) (c : ℚ) :
    (l.map fun x => f x * c).sum = (l.map f).sum * c := by
  induction l with
  | nil => simp
  | cons a as ih =>
      simp only [List.map_cons, List.sum_cons, ih]
      ring

theorem sum_le_length_mul (l : List ℚ) (hi : ℚ) (h : ∀ x ∈ l, x ≤ hi) :
    l.sum ≤ (l.length : ℚ) * hi := by
  induction l with
  | nil => simp
  | cons a as ih =>
      simp only [List.sum_cons, List.length_cons]
      have ha := h a (by simp)
      have has := ih fun x hx => h x (by simp [hx])
      push_cast
      linarith

theorem length_mul_le_sum (l : List ℚ) (lo : ℚ) (h : ∀ x ∈ l, lo ≤ x) :
    (l.length : ℚ) * lo ≤ l.sum := by
  induction l with
  | nil => simp
  | cons a as ih =>
      simp only [List.sum_cons, List.length_cons]
      have ha := h a (by simp)
      have has := ih fun x hx => h x (by simp [hx])
      push_cast
      linarith

theorem round2_le (q : ℚ) : round2 q ≤ q + 1 / 200 := by
  have h : (⌊q * 100 + 1 / 2⌋ : ℚ) ≤ q * 100 + 1 / 2 := Int.floor_le _
  unfold round2
  rw [div_le_iff₀ (by norm_num : (0 : ℚ) < 100)]
  linarith

theorem le_round2 (q : ℚ) : q - 1 / 200 ≤ round2 q := by
  have h : q * 100 + 1 / 2 < (⌊q * 100 + 1 / 2⌋ : ℚ) + 1 :=
    Int.lt_floor_add_one _
  unfold round2
  rw [le_div_iff₀ (by norm_num : (0 : ℚ) < 100)]
  linarith

/-- The uniform criterion weight multiplies every value and is then divided
back out, so the aggregated value is the rounded plain mean of the
contributing values. -/
theorem aggregateForCriterion_value_eq_mean (criterion : ScoringCriteria)
    (allScores : List Score)
    (hne : allScores.filter (fun s => s.name = criterion.name) ≠ []) :
    (aggregateForCriterion criterion allScores).value =
      round2
        (((allScores.filter (fun s => s.name = criterion.name)).map
            (fun s => s.value)).sum /
          ((allScores.filter (fun s => s.name = criterion.name)).length : ℚ)) := by
  unfold aggregateForCriterion
  set cs := allScores.filter (fun s => s.name = criterion.name) with hcs
  have hlen : ¬cs.length = 0 := by simpa [List.length_eq_zero] using hne
  rw [if_neg hlen]
  set w : ℚ := if criterion.weight = 0 then 1 else criterion.weight with hw
  have hw0 : w ≠ 0 := by
    by_cases h : criterion.weight = 0 <;> simp [hw, h]
  show round2 _ = round2 _
  congr 1
  rw [List.length_map, sum_map_mul_right_q, div_div,
    mul_comm ((cs.length : ℚ)) w, ← div_div, mul_div_assoc,
    div_self hw0, mul_one]

/-- C4: for every criterion with zero contributing scores, both
`aggregateQuantitativeScores` (reviews/index.ts) and `aggregateScores`
(orchestrator/index.ts) emit the placeholder `AggregatedScore` at the
criterion's `min` with comment `"No scores provided"` (and, being total
functions, they never throw in this case). -/
theorem aggregate_placeholder_rule (criteria : List ScoringCriteria)
    (scores : List (List Score)) (scoreResults : List ScoreResult)
    (c : ScoringCriteria) (hc : c ∈ criteria)
    (h1 : scores.flatten.filter (fun s => s.name = c.name) = [])
    (h2 : (scoreResults.flatMap (fun sr => sr.scores)).filter
        (fun s => s.name = c.name) = []) :
    (⟨c.name, c.min, 1, 0, "No scores provided", ""⟩ : Score) ∈
        (aggregateQuantitativeScores scores criteria).scores ∧
      (⟨c.name, c.min, 1, 0, "No scores provided", ""⟩ : Score) ∈
        aggregateScores scoreResults criteria := by
  have e1 : aggregateForCriterion c scores.flatten =
      ⟨c.name, c.min, 1, 0, "No scores provided", ""⟩ := by
    unfold aggregateForCriterion
    rw [h1]
    rfl
  have e2 : aggregateForCriterion c
        (scoreResults.flatMap (fun sr => sr.scores)) =
      ⟨c.name, c.min, 1, 0, "No scores provided", ""⟩ := by
    unfold aggregateForCriterion
    rw [h2]
    rfl
  constructor
  · show _ ∈ quantAggregated scores criteria
    exact e1 ▸ List.mem_map_of_mem _ hc
  · exact e2 ▸ List.mem_map_of_mem _ hc

/-- Witness for C4: one criterion, no scores anywhere. -/
theorem aggregate_placeholder_rule_witness :
    (⟨"clarity", (0 : ℚ), 1, 0, "No scores provided", ""⟩ : Score) ∈
        (aggregateQuantitativeScores []
          [⟨"clarity", "d", 0, 10, 1⟩]).scores ∧
      (⟨"clarity", (0 : ℚ), 1, 0, "No scores provided", ""⟩ : Score) ∈
        aggregateScores [] [⟨"clarity", "d", 0, 10, 1⟩] :=
  aggregate_placeholder_rule [⟨"clarity", "d", 0, 10, 1⟩] [] []
    ⟨"clarity", "d", 0, 10, 1⟩ (by simp) (by simp) (by simp)

/-- A one-criterion, one-score configuration whose raw value `1/3` is not
a multiple of `1/100`. -/
def hullCriterion : ScoringCriteria := ⟨"clarity", "d", 0, 10, 1⟩

def hullScore : Score := ⟨"clarity", 1 / 3, 1, 0, "", "m1"⟩

/-- C3 (counterexample): with a single contributing score of value `1/3`,
the aggregated value is `0.33`, which lies strictly below the minimum
(`1/3`) of the contributing raw values — rounding to 2 decimal places can
leave the convex hull. -/
theorem aggregate_hull_counterexample :
    (aggregateForCriterion hullCriterion [hullScore]).value = 33 / 100 ∧
      (∀ s ∈ ([hullScore] : List Score), s.value = 1 / 3) ∧
      (33 / 100 : ℚ) < 1 / 3 := by
  refine ⟨?_, ?_, by norm_num⟩
  · have h := aggregateForCriterion_value_eq_mean hullCriterion [hullScore]
      (by simp [hullScore, hullCriterion])
    rw [h]
    
    norm_num [hullScore, hullCriterion, round2]
  · intro s hs
    simp only [List.mem_singleton] at hs
    simp [hs, hullScore]

/-- C3 (amended): for every criterion with at least one contributing
score, aggregation (a total function — it never raises) outputs for that
criterion the value `(Σ value·weight) / (Σ weight)` — the criterion's
declared weight (default 1.0) applied uniformly — rounded to 2 decimal
places, and this value lies within the convex hull of the contributing
raw values **widened by the rounding quantum `1/200`** on each side (the
exact hull can be left by at most half a cent of rounding). -/
theorem aggregate_weighted_mean_hull (criteria : List ScoringCriteria)
    (scores : List (List Score)) (c : ScoringCriteria) (lo hi : ℚ)
    (hc : c ∈ criteria)
    (hne : scores.flatten.filter (fun s => s.name = c.name) ≠ [])
    (hbound : ∀ s ∈ scores.flatten.filter (fun s => s.name = c.name),
      lo ≤ s.value ∧ s.value ≤ hi) :
    aggregateForCriterion c scores.flatten ∈
        (aggregateQuantitativeScores scores criteria).scores ∧
      (aggregateForCriterion c scores.flatten).value =
        round2
          (((scores.flatten.filter (fun s => s.name = c.name)).map
              (fun s => s.value * (if c.weight = 0 then 1 else c.weight))).sum /
            ((scores.flatten.filter (fun s => s.name = c.name)).map
              (fun _ => if c.weight = 0 then 1 else c.weight)).sum) ∧
      lo - 1 / 200 ≤ (aggregateForCriterion c scores.flatten).value ∧
      (aggregateForCriterion c scores.flatten).value ≤ hi + 1 / 200 := by
  set cs := scores.flatten.filter (fun s => s.name = c.name) with hcs
  have hlenpos : 0 < (cs.length : ℚ) := by
    have h := List.length_pos.mpr hne
    exact_mod_cast h
  set w : ℚ := if c.weight = 0 then 1 else c.weight with hw
  have hw0 : w ≠ 0 := by
    by_cases h : c.weight = 0 <;> simp [hw, h]
  have hval := aggregateForCriterion_value_eq_mean c scores.flatten hne
  rw [← hcs] at hval
  have hspec : (cs.map (fun s => s.value * w)).sum / (cs.map (fun _ => w)).sum
      = (cs.map (fun s => s.value)).sum / (cs.length : ℚ) := by
    rw [sum_map_mul_right_q, sum_map_const_q, mul_comm ((cs.length : ℚ)) w,
      mul_comm ((cs.map (fun s => s.value)).sum) w, mul_div_mul_left _ _ hw0]
  have hmeanlo : lo ≤ (cs.map (fun s => s.value)).sum / (cs.length : ℚ) := by
    rw [le_div_iff₀ hlenpos]
    have h := length_mul_le_sum (cs.map (fun s => s.value)) lo ?_
    · simpa [List.length_map, mul_comm] using h
    · intro x hx
      obtain ⟨s, hs, rfl⟩ := List.mem_map.mp hx
      exact (hbound s hs).1
  have hmeanhi : (cs.map (fun s => s.value)).sum / (cs.length : ℚ) ≤ hi := by
    rw [div_le_iff₀ hlenpos]
    have h := sum_le_length_mul (cs.map (fun s => s.value)) hi ?_
    · simpa [List.length_map, mul_comm] using h
    · intro x hx
      obtain ⟨s, hs, rfl⟩ := List.mem_map.mp hx
      exact (hbound s hs).2
  refine ⟨?_, ?_, ?_, ?_⟩
  · show _ ∈ quantAggregated scores criteria
    exact List.mem_map_of_mem _ hc
  · rw [hval]
    congr 1
    exact hspec.symm
  · rw [hval]
    have h1 := le_round2 ((cs.map (fun s => s.value)).sum / (cs.length : ℚ))
    linarith
  · rw [hval]
    have h1 := round2_le ((cs.map (fun s => s.value)).sum / (cs.length : ℚ))
    linarith

/-- A single contributing score of value 2 used by witnesses. -/
def meanScore : Score := ⟨"clarity", 2, 1, 0, "", "m1"⟩

/-- Witness for C3's amended theorem: one criterion, one score of value 2,
hull `[2, 2]`. -/
theorem aggregate_weighted_mean_hull_witness :
    aggregateForCriterion hullCriterion [[meanScore]].flatten ∈
        (aggregateQuantitativeScores [[meanScore]] [hullCriterion]).scores ∧
      (aggregateForCriterion hullCriterion [[meanScore]].flatten).value =
        round2
          ((([[meanScore]].flatten.filter
                (fun s => s.name = hullCriterion.name)).map
              (fun s => s.value *
                (if hullCriterion.weight = 0 then 1
                  else hullCriterion.weight))).sum /
            (([[meanScore]].flatten.filter
                (fun s => s.name = hullCriterion.name)).map
              (fun _ =>
                if hullCriterion.weight = 0 then 1
                else hullCriterion.weight)).sum) ∧
      2 - 1 / 200 ≤
        (aggregateForCriterion hullCriterion [[meanScore]].flatten).value ∧
      (aggregateForCriterion hullCriterion [[meanScore]].flatten).value ≤
        2 + 1 / 200 :=
  aggregate_weighted_mean_hull [hullCriterion] [[meanScore]] hullCriterion 2 2
    (by simp) (by simp [meanScore, hullCriterion])
    (by simp [meanScore, hullCriterion])

/-- C10: with at least one contributing score, the aggregated per-criterion
value is independent of the criterion's weight — any two positive weights
give the same value, namely the unweighted arithmetic mean of the
contributing raw values rounded to 2 decimal places, because the uniform
weight multiplies each value and is then divided back out. -/
theorem aggregate_value_weight_independent (c : ScoringCriteria)
    (allScores : List Score) (w1 w2 : ℚ) (_h1 : 0 < w1) (_h2 : 0 < w2)
    (hne : allScores.filter (fun s => s.name = c.name) ≠ []) :
    (aggregateForCriterion { c with weight := w1 } allScores).value =
        (aggregateForCriterion { c with weight := w2 } allScores).value ∧
      (aggregateForCriterion { c with weight := w1 } allScores).value =
        round2
          (((allScores.filter (fun s => s.name = c.name)).map
              (fun s => s.value)).sum /
            ((allScores.filter (fun s => s.name = c.name)).length : ℚ)) := by
  have k1 := aggregateForCriterion_value_eq_mean { c with weight := w1 }
    allScores (by simpa using hne)
  have k2 := aggregateForCriterion_value_eq_mean { c with weight := w2 }
    allScores (by simpa using hne)
  simp only at k1 k2
  exact ⟨k1.trans k2.symm, k1⟩

/-- Witness for C10: weights 1 and 2 on a single score of value 2. -/
theorem aggregate_value_weight_independent_witness :
    (aggregateForCriterion { hullCriterion with weight := 1 }
          [meanScore]).value =
        (aggregateForCriterion { hullCriterion with weight := 2 }
          [meanScore]).value ∧
      (aggregateForCriterion { hullCriterion with weight := 1 }
          [meanScore]).value =
        round2
          ((([meanScore].filter
              (fun s => s.name = hullCriterion.name)).map
              (fun s => s.value)).sum /
            (([meanScore].filter
              (fun s => s.name = hullCriterion.name)).length : ℚ)) :=
  aggregate_value_weight_independent hullCriterion [meanScore] 1 2
    one_pos two_pos (by simp [meanScore, hullCriterion])

theorem consensusOf_eq_high (v : ℚ) :
    consensusOf v = Consensus.high ↔ v < 1 / 2 := by
  unfold consensusOf
  split_ifs with hv1 hv2 <;> simp_all

theorem consensusOf_eq_medium (v : ℚ) :
    consensusOf v = Consensus.medium ↔ 1 / 2 ≤ v ∧ v < 3 / 2 := by
  unfold consensusOf
  split_ifs with hv1 hv2
  · exact ⟨fun h => absurd h (by simp), fun h => absurd h.1 (by linarith)⟩
  · exact ⟨fun _ => ⟨by linarith, hv2⟩, fun _ => rfl⟩
  · exact ⟨fun h => absurd h (by simp), fun h => absurd h.2 (by linarith)⟩

theorem consensusOf_eq_low (v : ℚ) :
    consensusOf v = Consensus.low ↔ 3 / 2 ≤ v := by
  unfold consensusOf
  split_ifs with hv1 hv2
  · exact ⟨fun h => absurd h (by simp), fun h => absurd h (by linarith)⟩
  · exact ⟨fun h => absurd h (by simp), fun h => absurd h (by linarith)⟩
  · exact ⟨fun _ => by linarith, fun _ => rfl⟩

/-- Numeric rank of a consensus label: `low < medium < high`. -/
def consensusRank : Consensus → Nat
  | Consensus.low => 0
  | Consensus.medium => 1
  | Consensus.high => 2

theorem consensusRank_anti (v1 v2 : ℚ) (hle : v1 ≤ v2) :
    consensusRank (consensusOf v2) ≤ consensusRank (consensusOf v1) := by
  unfold consensusOf
  split_ifs <;> simp [consensusRank] <;> linarith

/-- C5: the consensus label computed by `aggregateQuantitativeScores` is
`high` exactly when the mean variance across criteria is `< 0.5`, `medium`
exactly when `0.5 ≤ v < 1.5`, and `low` exactly when `1.5 ≤ v`; and the
classification is antitone in the mean variance — a smaller mean variance
never yields a lower consensus label. -/
theorem consensus_classification (scores scores2 : List (List Score))
    (criteria criteria2 : List ScoringCriteria)
    (hle : quantAvgVariance scores criteria ≤
      quantAvgVariance scores2 criteria2) :
    ((aggregateQuantitativeScores scores criteria).consensus =
        Consensus.high ↔ quantAvgVariance scores criteria < 1 / 2) ∧
      ((aggregateQuantitativeScores scores criteria).consensus =
        Consensus.medium ↔
          1 / 2 ≤ quantAvgVariance scores criteria ∧
            quantAvgVariance scores criteria < 3 / 2) ∧
      ((aggregateQuantitativeScores scores criteria).consensus =
        Consensus.low ↔ 3 / 2 ≤ quantAvgVariance scores criteria) ∧
      consensusRank ((aggregateQuantitativeScores scores2 criteria2).consensus)
        ≤ consensusRank
            ((aggregateQuantitativeScores scores criteria).consensus) := by
  have hc : ∀ (s : List (List Score)) (c : List ScoringCriteria),
      (aggregateQuantitativeScores s c).consensus =
        consensusOf (quantAvgVariance s c) := fun _ _ => rfl
  rw [hc, hc]
  exact ⟨consensusOf_eq_high _, consensusOf_eq_medium _, consensusOf_eq_low _,
    consensusRank_anti _ _ hle⟩

/-- Witness for C5 at empty score sets (mean variance 0 on both sides). -/
theorem consensus_classification_witness :
    ((aggregateQuantitativeScores [] []).consensus =
        Consensus.high ↔ quantAvgVariance [] [] < 1 / 2) ∧
      ((aggregateQuantitativeScores [] []).consensus =
        Consensus.medium ↔
          1 / 2 ≤ quantAvgVariance [] [] ∧
            quantAvgVariance [] [] < 3 / 2) ∧
      ((aggregateQuantitativeScores [] []).consensus =
        Consensus.low ↔ 3 / 2 ≤ quantAvgVariance [] []) ∧
      consensusRank ((aggregateQuantitativeScores [] []).consensus)
        ≤ consensusRank ((aggregateQuantitativeScores [] []).consensus) :=
  consensus_classification [] [] [] [] (le_refl _)

/-! ## RankingEngine (`createAggregateScoresTool`, tool sort + rank
assignment) -/

/-- One entry of the `rankings` array built by `createAggregateScoresTool`
(`rank` is 0 before sorting: "Will be set after sorting"). -/
structure Ranking where
  design_id : String
  rank : Nat
  average_score : ℚ
  score_breakdown : List (String × ℚ)
  variance : ℚ
  reviewer_count : Nat
deriving Repr, DecidableEq

/-- The comparator `(a, b) => b.average_score - a.average_score`: `a` may
stay before `b` exactly when `b.average_score ≤ a.average_score`. -/
def byScoreDesc (a b : Ranking) : Prop :=
  b.average_score ≤ a.average_score

instance : DecidableRel byScoreDesc := fun a b =>
  inferInstanceAs (Decidable (b.average_score ≤ a.average_score))

instance : IsTotal Ranking byScoreDesc :=
  ⟨fun a b => le_total b.average_score a.average_score⟩

instance : IsTrans Ranking byScoreDesc :=
  ⟨fun _ _ _ h1 h2 => le_trans h2 h1⟩

/-- `rankings.sort((a, b) => b.average_score - a.average_score)`:
JavaScript's `Array.prototype.sort` is stable (ES2019), so this is the
stable descending sort by `average_score`, modelled by insertion sort
(stable sorts of a total preorder agree). -/
def sortRankings (rankings : List Ranking) : List Ranking :=
  List.insertionSort byScoreDesc rankings

/-- `rankings.forEach((r, i) => { r.rank = i + 1 })`, threading the
0-based index. -/
def assignRanks : List Ranking → Nat → List Ranking
  | [], _ => []
  | r :: rs, i => { r with rank := i + 1 } :: assignRanks rs (i + 1)

/-- The sort-and-rank tail of `createAggregateScoresTool.execute`
(part_000 lines 121-125). -/
def toolRankings (rankings : List Ranking) : List Ranking :=
  assignRanks (sortRankings rankings) 0

theorem assignRanks_map_rank (l : List Ranking) (i : Nat) :
    (assignRanks l i).map (fun r => r.rank) = List.range' (i + 1) l.length := by
  induction l generalizing i with
  | nil => rfl
  | cons r rs ih => simp [assignRanks, List.range', ih]

theorem assignRanks_avg_mem (l : List Ranking) (i : Nat) (y : Ranking)
    (hy : y ∈ assignRanks l i) :
    ∃ z ∈ l, y.average_score = z.average_score := by
  induction l generalizing i with
  | nil => cases hy
  | cons r rs ih =>
      rcases List.mem_cons.mp hy with h | h
      · exact ⟨r, by simp, by rw [h]⟩
      · obtain ⟨z, hz, he⟩ := ih (i + 1) h
        exact ⟨z, by simp [hz], he⟩

theorem pairwise_assignRanks (l : List Ranking)
    (hl : List.Pairwise byScoreDesc l) (i : Nat) :
    List.Pairwise byScoreDesc (assignRanks l i) := by
  induction l generalizing i with
  | nil => exact List.Pairwise.nil
  | cons r rs ih =>
      rcases List.pairwise_cons.mp hl with ⟨hr, hrs⟩
      refine List.pairwise_cons.mpr ⟨?_, ih hrs (i + 1)⟩
      intro y hy
      obtain ⟨z, hz, he⟩ := assignRanks_avg_mem rs (i + 1) y hy
      show y.average_score ≤ _
      rw [he]
      exact hr z hz

theorem assignRanks_filter_ids (l : List Ranking) (i : Nat) (v : ℚ) :
    ((assignRanks l i).filter (fun r => r.average_score = v)).map
        (fun r => r.design_id) =
      (l.filter (fun r => r.average_score = v)).map (fun r => r.design_id) := by
  induction l generalizing i with
  | nil => rfl
  | cons r rs ih =>
      by_cases hr : r.average_score = v
      · simp [assignRanks, List.filter_cons, hr, ih]
      · simp [assignRanks, List.filter_cons, hr, ih]

theorem filter_orderedInsert_eq (x : Ranking) (l : List Ranking) (v : ℚ)
    (hx : x.average_score = v) :
    (List.orderedInsert byScoreDesc x l).filter
        (fun r => r.average_score = v) =
      x :: l.filter (fun r => r.average_score = v) := by
  induction l with
  | nil => simp [hx]
  | cons y ys ih =>
      by_cases hxy : byScoreDesc x y
      · simp [List.orderedInsert, hxy, List.filter_cons, hx]
      · have hyne : ¬y.average_score = v := by
          intro h
          exact hxy (by rw [byScoreDesc, h, hx])
        simp [List.orderedInsert, hxy, List.filter_cons, hyne, ih]

theorem filter_orderedInsert_ne (x : Ranking) (l : List Ranking) (v : ℚ)
    (hx : ¬x.average_score = v) :
    (List.orderedInsert byScoreDesc x l).filter
        (fun r => r.average_score = v) =
      l.filter (fun r => r.average_score = v) := by
  induction l with
  | nil => simp [hx]
  | cons y ys ih =>
      by_cases hxy : byScoreDesc x y
      · simp [List.orderedInsert, hxy, List.filter_cons, hx]
      · by_cases hy : y.average_score = v
        · simp [List.orderedInsert, hxy, List.filter_cons, hy, ih]
        · simp [List.orderedInsert, hxy, List.filter_cons, hy, ih]

theorem filter_sortRankings (l : List Ranking) (v : ℚ) :
    (sortRankings l).filter (fun r => r.average_score = v) =
      l.filter (fun r => r.average_score = v) := by
  induction l with
  | nil => rfl
  | cons x xs ih =>
      unfold sortRankings at ih
      show (List.orderedInsert byScoreDesc x
          (List.insertionSort byScoreDesc xs)).filter _ = _
      by_cases hx : x.average_score = v
      · rw [filter_orderedInsert_eq x _ v hx]
        simp [List.filter_cons, hx, ih]
      · rw [filter_orderedInsert_ne x _ v hx]
        simp [List.filter_cons, hx, ih]

/-- C6: for every input list of scored candidates, the tool's ranking
output is sorted by `average_score` descending, its `rank` values are
exactly the contiguous sequence `1..N` (`N` = number of input candidates),
and candidates with equal scores keep their pre-sort encounter order: for
each score value, the sequence of design ids carrying it is unchanged
(stable sort). -/
theorem ranking_engine_output (rankings : List Ranking) :
    ((toolRankings rankings).map (fun r => r.rank) =
        List.range' 1 rankings.length) ∧
      List.Pairwise
        (fun a b => b.average_score ≤ a.average_score)
        (toolRankings rankings) ∧
      ∀ v : ℚ,
        ((toolRankings rankings).filter
            (fun r => r.average_score = v)).map (fun r => r.design_id) =
          (rankings.filter (fun r => r.average_score = v)).map
            (fun r => r.design_id) := by
  refine ⟨?_, ?_, ?_⟩
  · rw [toolRankings, assignRanks_map_rank]
    simp [sortRankings]
  · exact pairwise_assignRanks _ (List.sorted_insertionSort byScoreDesc rankings) 0
  · intro v
    rw [toolRankings, assignRanks_filter_ids]
    rw [filter_sortRankings]

/-! ## Failure policy: orchestrator module vs tool pipeline -/

/-- Abstract outcome of one model's design-generation attempt as seen by
the per-model `try` block of `createGenerateDesignsTool`: the agent call
threw, or produced an artifact that passes / fails schema validation. -/
inductive GenOutcome where
  | thrown (msg : String)
  | produced (valid : Bool)
deriving Repr, DecidableEq

/-- One entry of the tools' `results` array:
`{ model, success, error? }` (absent `error` modelled as `""`). -/
structure ModelRunResult where
  model : String
  success : Bool
  error : String
deriving Repr, DecidableEq

/-- The per-model loop of `createGenerateDesignsTool.execute` (part_001
lines 110-169): each model's failure — thrown error or schema-validation
failure (issue details elided) — is caught, pushed onto `results`, and the
loop continues with the next model. -/
def generateDesignsToolLoop (outcome : String → GenOutcome) :
    List String → List ModelRunResult
  | [] => []
  | m :: ms =>
      (match outcome m with
        | GenOutcome.thrown e => ⟨m, false, e⟩
        | GenOutcome.produced true => ⟨m, true, ""⟩
        | GenOutcome.produced false => ⟨m, false, "Schema validation failed"⟩) ::
        generateDesignsToolLoop outcome ms

/-- The per-model loop of `createReviewDesignsTool.execute`
(review-designs.ts lines 93-136): same catch-and-record shape for the
review/scoring phase. -/
def reviewDesignsToolLoop (outcome : String → Except String Unit) :
    List String → List ModelRunResult
  | [] => []
  | m :: ms =>
      (match outcome m with
        | Except.ok _ => ⟨m, true, ""⟩
        | Except.error e => ⟨m, false, e⟩) ::
        reviewDesignsToolLoop outcome ms

/-- `results.filter((r) => !r.success).length`. -/
def failCount (rs : List ModelRunResult) : Nat :=
  (rs.filter (fun r => !r.success)).length

/-- `generateDesignsInParallel` (orchestrator/index.ts lines 42-118),
restricted to its control flow: each per-model promise wraps a failure in
`Design generation failed for model ...` and re-throws it, and
`Promise.all` rejects with the first failing model's error (list order in
this sequential model), discarding every other model's result. -/
def generateDesignsInParallel (agent : String → Except String Unit) :
    List String → Except String (List String)
  | [] => Except.ok []
  | m :: ms =>
      match agent m with
      | Except.error e =>
          Except.error
            ("Design generation failed for model " ++ m ++ ": " ++ e)
      | Except.ok _ =>
          match generateDesignsInParallel agent ms with
          | Except.error e => Except.error e
          | Except.ok rs => Except.ok (m :: rs)

/-- An agent that fails on `model-a` only. -/
def failingAgent : String → Except String Unit :=
  fun m => if m = "model-a" then Except.error "boom" else Except.ok ()

/-- C7 (counterexample): in the orchestrator module cited by the claim,
one model's failure is wrapped and re-thrown, so the combined promise
rejects — the pipeline raises instead of completing with partial results,
and the second model's work is discarded. -/
theorem orchestrator_failure_raises_counterexample :
    generateDesignsInParallel failingAgent ["model-a", "model-b"] =
      Except.error "Design generation failed for model model-a: boom" := by
  rfl

/-- C7 (amended): the catch-and-record failure policy holds in the tool
pipeline (`createGenerateDesignsTool` / `createReviewDesignsTool`), not in
the orchestrator module's functions, which wrap and re-throw: the tool
loops are total (never raise), keep one result per model in order,
continue past any model's failure — changing one model's outcome cannot
affect any other model's recorded result — and report the number of
failing models as the failure count. -/
theorem tool_loop_failure_policy (models : List String)
    (o1 o2 : String → GenOutcome) (ro : String → Except String Unit)
    (m : String) (hdiff : ∀ m', m' ≠ m → o1 m' = o2 m') :
    ((generateDesignsToolLoop o1 models).map (fun r => r.model) = models) ∧
      ((reviewDesignsToolLoop ro models).map (fun r => r.model) = models) ∧
      (failCount (generateDesignsToolLoop o1 models) =
        (models.filter (fun m' =>
          match o1 m' with
          | GenOutcome.produced true => false
          | _ => true)).length) ∧
      (∀ r1 r2,
        (r1, r2) ∈ List.zip (generateDesignsToolLoop o1 models)
          (generateDesignsToolLoop o2 models) →
        r1.model ≠ m → r1 = r2) := by
  refine ⟨?_, ?_, ?_, ?_⟩
  · induction models with
    | nil => rfl
    | cons x xs ih =>
        cases h : o1 x with
        | thrown e => simp [generateDesignsToolLoop, h, ih]
        | produced valid =>
            cases valid <;> simp [generateDesignsToolLoop, h, ih]
  · induction models with
    | nil => rfl
    | cons x xs ih =>
        cases h : ro x with
        | ok u => simp [reviewDesignsToolLoop, h, ih]
        | error e => simp [reviewDesignsToolLoop, h, ih]
  · induction models with
    | nil => rfl
    | cons x xs ih =>
        simp only [failCount] at ih
        cases h : o1 x with
        | thrown e =>
            simp [generateDesignsToolLoop, h, failCount, List.filter_cons, ih]
        | produced valid =>
            cases valid <;>
              simp [generateDesignsToolLoop, h, failCount, List.filter_cons, ih]
  · induction models with
    | nil => intro r1 r2 hmem; cases hmem
    | cons x xs ih =>
        intro r1 r2 hmem hne
        simp only [generateDesignsToolLoop, List.zip_cons_cons,
          List.mem_cons] at hmem
        rcases hmem with heq | htail
        · have hx : r1.model = x := by
            have h1 : r1 = _ := congrArg Prod.fst heq
            rw [h1]
            cases h : o1 x with
            | thrown e => simp [h]
            | produced valid => cases valid <;> simp [h]
          have hxm : x ≠ m := by
            rw [← hx]
            exact hne
          have ho : o1 x = o2 x := hdiff x hxm
          have h1 : r1 = _ := congrArg Prod.fst heq
          have h2 : r2 = _ := congrArg Prod.snd heq
          rw [h1, h2, ho]
        · exact ih r1 r2 htail hne

/-- Witness for C7's amended theorem: two models where only `m1` fails. -/
theorem tool_loop_failure_policy_witness :
    ((generateDesignsToolLoop
          (fun m' => if m' = "m1" then GenOutcome.thrown "boom"
            else GenOutcome.produced true) ["m1", "m2"]).map
        (fun r => r.model) = ["m1", "m2"]) ∧
      ((reviewDesignsToolLoop (fun _ => Except.ok ()) ["m1", "m2"]).map
        (fun r => r.model) = ["m1", "m2"]) ∧
      (failCount
          (generateDesignsToolLoop
            (fun m' => if m' = "m1" then GenOutcome.thrown "boom"
              else GenOutcome.produced true) ["m1", "m2"]) =
        (["m1", "m2"].filter (fun m' =>
          match
            (if m' = "m1" then GenOutcome.thrown "boom"
              else GenOutcome.produced true) with
          | GenOutcome.produced true => false
          | _ => true)).length) ∧
      (∀ r1 r2,
        (r1, r2) ∈ List.zip
          (generateDesignsToolLoop
            (fun m' => if m' = "m1" then GenOutcome.thrown "boom"
              else GenOutcome.produced true) ["m1", "m2"])
          (generateDesignsToolLoop
            (fun _ => GenOutcome.produced true) ["m1", "m2"]) →
        r1.model ≠ "m1" → r1 = r2) :=
  tool_loop_failure_policy ["m1", "m2"]
    (fun m' => if m' = "m1" then GenOutcome.thrown "boom"
      else GenOutcome.produced true)
    (fun _ => GenOutcome.produced true) (fun _ => Except.ok ()) "m1"
    (by intro m' h; simp [h])

/-! ## Duplicate run directories (orchestrator/index.ts vs part_001) -/

/-- A filesystem is the list of existing paths; `fs.existsSync` is
membership, and `mkdirSync`/`writeFileSync` record the path (creating or
overwriting — ancestor directories are elided; the modelled code never
queries them). -/
def fsAdd (fs : List String) (p : String) : List String :=
  if fs.contains p then fs else p :: fs

/-- `model.replace(/\//g, "-")`. -/
def slashToDash (s : String) : String :=
  String.mk (s.data.map (fun c => if c = '/' then '-' else c))

/-- The directory step of `generateDesignsInParallel`'s per-model body
(orchestrator/index.ts lines 88-107), given the already computed
`experimentDir`: `mkdirSync(designsDir, { recursive: true })`, write
`task.json`, write the design artifact.  There is no existence check and
no error path — an existing run directory is silently merged into and its
`task.json` overwritten. -/
def orchestratorDirStep (fs : List String) (experimentDir model : String) :
    List String :=
  let designsDir := pathJoin experimentDir "designs"
  let fs1 := fsAdd fs designsDir
  let fs2 := fsAdd fs1 (pathJoin experimentDir "task.json")
  fsAdd fs2 (pathJoin designsDir ("design-" ++ slashToDash model ++ ".json"))

/-- The lab-directory preparation of `createGenerateDesignsTool.execute`
(part_001 lines 69-101): if the lab directory already exists, return an
error message and touch nothing; otherwise create `designs/`, `reviews/`,
`scores/` and write `task.json`. -/
def toolPrepareLab (fs : List String) (labDir : String) :
    Except String (List String) :=
  if fs.contains labDir then
    Except.error ("Error: Lab directory already exists at " ++ labDir)
  else
    Except.ok
      (fsAdd
        (fsAdd
          (fsAdd (fsAdd (fsAdd fs labDir) (pathJoin labDir "designs"))
            (pathJoin labDir "reviews"))
          (pathJoin labDir "scores"))
        (pathJoin labDir "task.json"))

/-- C8 (counterexample): with the run directory already present, the
orchestrator's `generateDesignsInParallel` does not refuse — it has no
error path at all for this case — and writes `task.json` (and the design
artifact) into the existing directory, i.e. it merges. -/
theorem orchestrator_duplicate_run_counterexample :
    pathJoin "/proj/.design-lab/2026-10-11-topic" "task.json" ∈
        orchestratorDirStep ["/proj/.design-lab/2026-10-11-topic"]
          "/proj/.design-lab/2026-10-11-topic" "m1" ∧
      "/proj/.design-lab/2026-10-11-topic" ∈
        (["/proj/.design-lab/2026-10-11-topic"] : List String) := by
  constructor
  · decide
  · decide

/-- C8 (amended): the duplicate-run refusal is implemented by the
`generate_designs` tool, not by the orchestrator module's
`generateDesignsInParallel`: when the lab directory already exists the
tool returns an error message naming the conflict and performs no
filesystem writes (the error carries the filesystem unchanged — no merge,
no overwrite). -/
theorem tool_duplicate_run_refusal (fs : List String) (labDir : String)
    (h : fs.contains labDir = true) :
    toolPrepareLab fs labDir =
      Except.error ("Error: Lab directory already exists at " ++ labDir) := by
  simp only [toolPrepareLab, h, if_pos]

/-- Witness for C8's amended theorem. -/
theorem tool_duplicate_run_refusal_witness :
    toolPrepareLab ["/proj/.design-lab/2026-10-11-topic"]
        "/proj/.design-lab/2026-10-11-topic" =
      Except.error
        ("Error: Lab directory already exists at " ++
          "/proj/.design-lab/2026-10-11-topic") :=
  tool_duplicate_run_refusal ["/proj/.design-lab/2026-10-11-topic"]
    "/proj/.design-lab/2026-10-11-topic" (by decide)
